import Mathlib

/-!
Verification of the FrameGraph component of ign-math (frame hierarchy with
relative-pose queries).  The repository ships only the public header
`src/include/ignition/math/FrameGraph.hh` (declarations and doc comments);
the implementation files (`FrameGraph.cc`, `Frame.hh`, `RelativePose.hh`,
`FrameException.hh`) are not present, so the operational definitions below
are modelled from the specification (`spec.md`, sections 3, 4 and 7) and from
the parameter contracts documented in the header.

The rigid-transform value type is an external collaborator of the system
(spec section 1): it must supply composition, inversion and an identity and
be a pure value.  It is therefore embedded as an arbitrary `Group G`;
concrete instances below use `Multiplicative (ℤ × ℤ × ℤ)` (pure
translations) and `DihedralGroup 3` (a non-commutative transform group).
-/

namespace IgnMath

/-- A path segment is a frame name, kept as a list of characters so that
path-string splitting admits straightforward inductive proofs. -/
abbrev Seg := List Char

/-- An absolute frame path, as the sequence of names from the root down. -/
abbrev FPath := List Seg

/-- Modelled from the spec: the error taxonomy of section 7 (the
implementation's `FrameException.hh` is missing from the sources). -/
inductive FrameError where
  | invalidPath
  | duplicateName
  | deletedFrame
  | rootViolation
deriving DecidableEq, Repr

instance {ε α : Type} [DecidableEq ε] [DecidableEq α] : DecidableEq (Except ε α) := fun x y =>
  match x, y with
  | .ok a, .ok b =>
      if h : a = b then .isTrue (by rw [h]) else .isFalse (by intro hc; cases hc; exact h rfl)
  | .error a, .error b =>
      if h : a = b then .isTrue (by rw [h]) else .isFalse (by intro hc; cases hc; exact h rfl)
  | .ok _, .error _ => .isFalse (by intro hc; cases hc)
  | .error _, .ok _ => .isFalse (by intro hc; cases hc)

/-- Modelled from the spec: splitting a character sequence at the `/`
separator (section 4.2, "split into segments"). `splitSegs` of an empty
sequence is the single empty segment, matching the usual split semantics in
which a doubled separator produces an empty (malformed) segment. -/
def splitSegs : List Char → List Seg
  | [] => [[]]
  | c :: rest =>
      if c = '/' then [] :: splitSegs rest
      else
        match splitSegs rest with
        | [] => [[c]]
        | s :: ss => (c :: s) :: ss

/-- Modelled from the spec: the path grammar of section 4.2 on a character
sequence.  The empty sequence denotes the root; otherwise the optional
leading separator is stripped and the remainder is split into segments, all
of which must be non-empty (an empty segment, e.g. from a doubled separator,
is malformed and yields `none`, the `InvalidPath` case). -/
def parseChars : List Char → Option FPath
  | [] => some []
  | c :: rest =>
      let body := if c = '/' then rest else c :: rest
      if [] ∈ splitSegs body then none else some (splitSegs body)

/-- Modelled from the spec: the Path Resolver's parse of a path string
(section 4.2). -/
def parsePath (s : String) : Option FPath :=
  parseChars s.data

/-- Modelled from the spec and the header (FrameGraph.hh line 106): a path in
explicitly absolute form either is the empty root designator or starts with
the separator. -/
def isAbsolute (s : String) : Bool :=
  s.data = [] || s.data.head? = some '/'

/-- Modelled from the spec: the Frame Store (section 2 and 4.1).  The tree of
frames is embedded as the finite set of existing non-root frames, each
carrying a numeric identity (the "specific frame instance" of section 3,
never reused, used by weak references), its absolute path and its local
transform.  The implicit root (empty path, identity transform, always
present) is not stored. -/
structure FrameGraph (G : Type) where
  frames : List (Nat × FPath × G)
  nextId : Nat
deriving DecidableEq

/-- Modelled from the spec: the empty frame store holding only the implicit
root. -/
def emptyGraph (G : Type) : FrameGraph G := ⟨[], 0⟩

/-- Lookup of the first stored entry with the given path. -/
def findPath {G : Type} : List (Nat × FPath × G) → FPath → Option (Nat × G)
  | [], _ => none
  | (i, q, x) :: rest, p => if q = p then some (i, x) else findPath rest p

/-- Lookup of the stored entry with the given frame identity. -/
def findId {G : Type} : List (Nat × FPath × G) → Nat → Option (FPath × G)
  | [], _ => none
  | (i, q, x) :: rest, j => if i = j then some (q, x) else findId rest j

variable {G : Type}

/-- Modelled from the spec: a frame exists when it is the implicit root or is
stored in the Frame Store. -/
def frameExists (g : FrameGraph G) (p : FPath) : Bool :=
  decide (p = []) || (findPath g.frames p).isSome

/-- Local transform of the frame addressed by `p` (identity for the root,
identity default for absent paths; callers guard with resolution). -/
def poseAt [One G] (g : FrameGraph G) (p : FPath) : G :=
  if p = [] then 1
  else
    match findPath g.frames p with
    | some (_, x) => x
    | none => 1

/-- Modelled from the spec: segment-by-segment resolution of section 4.2 —
a path resolves when every frame along it, i.e. every prefix of the path,
exists in the store. -/
def frameResolves (g : FrameGraph G) (p : FPath) : Bool :=
  p.inits.all (frameExists g)

/-- Longest common prefix of two paths; the path of the lowest common
ancestor of the two addressed frames (spec section 4.3 step 3). -/
def lcp : FPath → FPath → FPath
  | a :: as, b :: bs => if a = b then a :: lcp as bs else []
  | _, _ => []

/-- The ordered list of local transforms of the frames below `anc` along the
segment sequence `rest` (parent first, spec section 4.3 step 4). -/
def chainDown [One G] (g : FrameGraph G) (anc : FPath) : List Seg → List G
  | [] => []
  | s :: rest => poseAt g (anc ++ [s]) :: chainDown g (anc ++ [s]) rest

/-- Modelled from the spec: the ordered composition of local transforms from
the ancestor `anc` down to the frame `anc ++ rest` (section 4.3 step 4:
each frame's local transform is composed onto the accumulated result in
parent-to-child order). -/
def composeDown [Group G] (g : FrameGraph G) (anc : FPath) : List Seg → G
  | [] => 1
  | s :: rest => poseAt g (anc ++ [s]) * composeDown g (anc ++ [s]) rest

/-- Modelled from the spec: the Pose Composer algorithm of section 4.3 on two
resolved frames: return identity immediately when the frames coincide;
otherwise compose local transforms from the lowest common ancestor down to
each frame and return `inverse(T_src) * T_dst`, the pose of the destination
frame as seen from the source frame. -/
def PoseSegs [Group G] (g : FrameGraph G) (ds ss : FPath) : Except FrameError G :=
  if frameResolves g ds && frameResolves g ss then
    if ds = ss then .ok 1
    else
      .ok ((chainDown g (lcp ds ss) (ss.drop (lcp ds ss).length)).prod⁻¹ *
        (chainDown g (lcp ds ss) (ds.drop (lcp ds ss).length)).prod)
  else .error .invalidPath

/-- Modelled from the spec: `FrameGraph::Pose(dst, src)` (header lines
65–71): resolve both path strings via the Path Resolver, then defer to the
Pose Composer; any resolution failure is an `InvalidPath` error. -/
def Pose [Group G] (g : FrameGraph G) (dst src : String) : Except FrameError G :=
  match parsePath dst, parsePath src with
  | some ds, some ss => PoseSegs g ds ss
  | _, _ => .error .invalidPath

/-- Modelled from the spec: `FrameGraph::LocalPose(path)` (header lines
80–84): resolve the path and return the frame's local transform, relative to
its immediate parent. -/
def LocalPose [Group G] (g : FrameGraph G) (p : String) : Except FrameError G :=
  match parsePath p with
  | none => .error .invalidPath
  | some ps => if frameResolves g ps then .ok (poseAt g ps) else .error .invalidPath

/-- Modelled from the spec: `FrameGraph::AddFrame(path, name, pose)` (header
lines 51–58, spec section 4.1): resolve the parent path (`InvalidPath` on
failure), fail with `DuplicateName` when the name already exists among the
parent's children, otherwise insert the new frame with a fresh identity. -/
def AddFrame [Group G] (g : FrameGraph G) (p n : String) (pose : G) :
    Except FrameError (FrameGraph G) :=
  match parsePath p with
  | none => .error .invalidPath
  | some ps =>
      if frameResolves g ps then
        if frameExists g (ps ++ [n.data]) then .error .duplicateName
        else .ok ⟨(g.nextId, ps ++ [n.data], pose) :: g.frames, g.nextId + 1⟩
      else .error .invalidPath

/-- Removal of the frame addressed by `ps` together with its entire subtree:
every stored frame whose path extends `ps` is dropped. -/
def deleteSub (g : FrameGraph G) (ps : FPath) : FrameGraph G :=
  ⟨g.frames.filter (fun e => !decide (ps <+: e.2.1)), g.nextId⟩

/-- Modelled from the spec: `FrameGraph::DeleteFrame(path)` (header lines
60–63, spec section 4.1): resolve the path (`InvalidPath` on failure), fail
with `RootViolation` when the path designates the non-deletable root,
otherwise remove the frame and its whole subtree. -/
def DeleteFrame [Group G] (g : FrameGraph G) (p : String) :
    Except FrameError (FrameGraph G) :=
  match parsePath p with
  | none => .error .invalidPath
  | some ps =>
      if frameResolves g ps then
        if ps = [] then .error .rootViolation else .ok (deleteSub g ps)
      else .error .invalidPath

/-- Modelled from the spec: a weak frame reference (section 3) — a non-owning
handle naming a specific frame instance (by its never-reused identity), or
the always-live root. -/
inductive WeakRef where
  | root
  | frame (id : Nat)
deriving DecidableEq

/-- Modelled from the spec: the relative-query cache token (section 4.4),
capturing weak references to the destination and source frames. -/
structure RelativePose where
  dst : WeakRef
  src : WeakRef
deriving DecidableEq

/-- Liveness of a weak reference: the root is always live, a frame reference
is live while its frame instance is still stored. -/
def refLive (g : FrameGraph G) : WeakRef → Bool
  | .root => true
  | .frame i => (findId g.frames i).isSome

/-- Current path of the frame a live weak reference designates. -/
def refPath (g : FrameGraph G) : WeakRef → Option FPath
  | .root => some []
  | .frame i => (findId g.frames i).map (fun e => e.1)

/-- Modelled from the spec: resolution of a path string to a weak frame
reference (`FrameGraph::Frame`, header lines 113–117). -/
def resolveRef (g : FrameGraph G) (p : String) : Except FrameError WeakRef :=
  match parsePath p with
  | none => .error .invalidPath
  | some ps =>
      if frameResolves g ps then
        if ps = [] then .ok .root
        else
          match findPath g.frames ps with
          | some (i, _) => .ok (.frame i)
          | none => .error .invalidPath
      else .error .invalidPath

/-- Modelled from the spec: `FrameGraph::CreateRelativePose(dstPath, srcPath)`
(header lines 105–111, spec section 4.4).  Per the header's parameter
contract the destination path must be in explicitly absolute form while the
source path may be relative; both are resolved once (relative source paths
resolve from the root) and weak references to the resulting frames are
captured in the returned token. -/
def CreateRelativePose [Group G] (g : FrameGraph G) (d s : String) :
    Except FrameError RelativePose :=
  if isAbsolute d then
    match resolveRef g d with
    | .error e => .error e
    | .ok rd =>
        match resolveRef g s with
        | .error e => .error e
        | .ok rs => .ok ⟨rd, rs⟩
  else .error .invalidPath

/-- Modelled from the spec: `FrameGraph::Pose(relativePose)` (header lines
73–78, spec section 4.4): re-validate that both captured weak references are
still live — failing with `DeletedFrame` when either has gone stale — and
then invoke the Pose Composer on the two live frames. -/
def PoseRelative [Group G] (g : FrameGraph G) (t : RelativePose) : Except FrameError G :=
  if refLive g t.dst && refLive g t.src then
    match refPath g t.dst, refPath g t.src with
    | some ds, some ss => PoseSegs g ds ss
    | _, _ => .error .deletedFrame
  else .error .deletedFrame

/-- The transform of the frame addressed by `ps` relative to the root: the
ordered composition of all local transforms along the path. -/
def worldOf [Group G] (g : FrameGraph G) (ps : FPath) : G :=
  (chainDown g [] ps).prod

/-- Concrete transform group of pure translations with integer coordinates,
written multiplicatively so that transform composition is the group
operation. -/
abbrev TZ := Multiplicative (ℤ × ℤ × ℤ)

/-- The translation by `(x, y, z)` as a transform value. -/
def tr (x y z : ℤ) : TZ := Multiplicative.ofAdd (x, y, z)

/-- The frame store produced by the spec's concrete scenario:
`AddFrame("", "world", identity)`, `AddFrame("/world", "a", Translate(1,0,0))`,
`AddFrame("/world", "b", Translate(0,1,0))` on the empty store. -/
def exGraph : FrameGraph TZ :=
  ⟨[(2, ["world".data, "b".data], tr 0 1 0),
    (1, ["world".data, "a".data], tr 1 0 0),
    (0, ["world".data], 1)], 3⟩

/-- The scenario store after `DeleteFrame("/world/a")`. -/
def exDel : FrameGraph TZ :=
  ⟨[(2, ["world".data, "b".data], tr 0 1 0),
    (0, ["world".data], 1)], 3⟩

/-- The scenario store after a further `AddFrame("/world", "c", Translate(2,0,0))`. -/
def exAdd : FrameGraph TZ :=
  ⟨(3, ["world".data, "c".data], tr 2 0 0) ::
    [(2, ["world".data, "b".data], tr 0 1 0),
     (1, ["world".data, "a".data], tr 1 0 0),
     (0, ["world".data], 1)], 4⟩

/-- A store over a non-commutative transform group: three frames under the
root with local transforms `1`, a reflection and a rotation of the dihedral
group of order 6. -/
def gD : FrameGraph (DihedralGroup 3) :=
  ⟨[(2, ["c".data], DihedralGroup.r 1),
    (1, ["b".data], DihedralGroup.sr 0),
    (0, ["a".data], 1)], 3⟩

/-! Lemmas about path splitting and parsing. -/

theorem splitSegs_ne_nil (cs : List Char) : splitSegs cs ≠ [] := by
  match cs with
  | [] => simp [splitSegs]
  | c :: rest =>
      simp only [splitSegs]
      split
      · simp
      · split
        · simp
        · simp

theorem splitSegs_no_sep (cs : List Char) (h : '/' ∉ cs) : splitSegs cs = [cs] := by
  induction cs with
  | nil => rfl
  | cons c rest ih =>
      have hc : ¬ c = '/' := fun hc => h (by simp [hc])
      have hrest : '/' ∉ rest := fun hm => h (List.mem_cons_of_mem _ hm)
      simp only [splitSegs, if_neg hc, ih hrest]

theorem splitSegs_append (xs ys : List Char) :
    splitSegs (xs ++ '/' :: ys) = splitSegs xs ++ splitSegs ys := by
  induction xs with
  | nil => simp [splitSegs]
  | cons c rest ih =>
      rw [List.cons_append]
      by_cases hc : c = '/'
      · rw [splitSegs, if_pos hc, ih]
        conv_rhs => rw [splitSegs, if_pos hc]
        rfl
      · rw [splitSegs, if_neg hc]
        conv_rhs => rw [splitSegs, if_neg hc]
        rw [ih]
        match hrest : splitSegs rest with
        | [] => exact absurd hrest (splitSegs_ne_nil rest)
        | s :: ss => rfl

theorem parseChars_append_seg (pd n : List Char) (ps : FPath)
    (hp : parseChars pd = some ps) (hn : n ≠ []) (hsep : '/' ∉ n) :
    parseChars (pd ++ '/' :: n) = some (ps ++ [n]) := by
  have hnn : [] ∉ splitSegs n := by
    rw [splitSegs_no_sep n hsep]
    simp only [List.mem_singleton]
    exact fun h => hn (Eq.symm h)
  cases pd with
  | nil =>
      simp only [parseChars, Option.some.injEq] at hp
      subst hp
      have h1 : parseChars ('/' :: n) = if [] ∈ splitSegs n then none else some (splitSegs n) := by
        simp [parseChars]
      rw [List.nil_append, h1, if_neg hnn, splitSegs_no_sep n hsep]
      rfl
  | cons c rest =>
      simp only [parseChars] at hp ⊢
      by_cases hc : c = '/'
      · simp only [List.cons_append, if_pos hc] at hp ⊢
        rw [splitSegs_append]
        split at hp
        · exact absurd hp (by simp)
        · rename_i hmem
          simp only [Option.some.injEq] at hp
          subst hp
          rw [if_neg (by
            simp only [List.mem_append]
            rintro (h1 | h2)
            · exact hmem h1
            · exact hnn h2)]
          rw [splitSegs_no_sep n hsep]
      · simp only [List.cons_append, if_neg hc] at hp ⊢
        have hre : (c :: (rest ++ '/' :: n)) = (c :: rest) ++ '/' :: n := by simp
        rw [hre, splitSegs_append]
        split at hp
        · exact absurd hp (by simp)
        · rename_i hmem
          simp only [Option.some.injEq] at hp
          subst hp
          rw [if_neg (by
            simp only [List.mem_append]
            rintro (h1 | h2)
            · exact hmem h1
            · exact hnn h2)]
          rw [splitSegs_no_sep n hsep]

theorem parsePath_append_seg (p n : String) (ps : FPath)
    (hp : parsePath p = some ps) (hn : n.data ≠ []) (hsep : '/' ∉ n.data) :
    parsePath (p ++ "/" ++ n) = some (ps ++ [n.data]) := by
  have hdata : (p ++ "/" ++ n).data = p.data ++ '/' :: n.data := by
    simp [String.data_append]
  unfold parsePath
  rw [hdata]
  exact parseChars_append_seg p.data n.data ps hp hn hsep

/-! Lemmas about transform chains, common prefixes and the Pose Composer. -/

theorem chainDown_append [Group G] (g : FrameGraph G) (xs ys : List Seg) :
    ∀ anc : FPath,
      chainDown g anc (xs ++ ys) = chainDown g anc xs ++ chainDown g (anc ++ xs) ys := by
  induction xs with
  | nil => intro anc; simp [chainDown]
  | cons s rest ih =>
      intro anc
      show chainDown g anc (s :: (rest ++ ys)) = _
      rw [chainDown, ih (anc ++ [s]), chainDown, List.cons_append]
      have hassoc : anc ++ [s] ++ rest = anc ++ s :: rest := by simp
      rw [hassoc]

theorem composeDown_eq_prod [Group G] (g : FrameGraph G) (rest : List Seg) :
    ∀ anc : FPath, composeDown g anc rest = (chainDown g anc rest).prod := by
  induction rest with
  | nil => intro anc; simp [composeDown, chainDown]
  | cons s r ih =>
      intro anc
      rw [composeDown, chainDown, List.prod_cons, ih]

theorem lcp_append_drop : ∀ a b : FPath, lcp a b ++ a.drop (lcp a b).length = a
  | [], _ => by simp [lcp]
  | _ :: _, [] => by simp [lcp]
  | x :: xs, y :: ys => by
      have hlcp : lcp (x :: xs) (y :: ys) = if x = y then x :: lcp xs ys else [] := rfl
      by_cases h : x = y
      · rw [hlcp, if_pos h]
        simp only [List.length_cons, List.drop_succ_cons, List.cons_append]
        rw [lcp_append_drop xs ys]
      · rw [hlcp, if_neg h]
        simp

theorem lcp_symm : ∀ a b : FPath, lcp a b = lcp b a
  | [], [] => rfl
  | [], _ :: _ => rfl
  | _ :: _, [] => rfl
  | x :: xs, y :: ys => by
      by_cases h : x = y
      · show (if x = y then x :: lcp xs ys else []) = (if y = x then y :: lcp ys xs else [])
        rw [if_pos h, if_pos (Eq.symm h), lcp_symm xs ys, h]
      · show (if x = y then x :: lcp xs ys else []) = (if y = x then y :: lcp ys xs else [])
        rw [if_neg h, if_neg (fun hh => h (Eq.symm hh))]

theorem chainDown_drop_prod [Group G] (g : FrameGraph G) (l rest : FPath) :
    (chainDown g l rest).prod = (worldOf g l)⁻¹ * worldOf g (l ++ rest) := by
  rw [worldOf, worldOf, chainDown_append g l rest [], List.nil_append, List.prod_append,
    inv_mul_cancel_left]

theorem poseSegs_eq_world [Group G] (g : FrameGraph G) (ds ss : FPath)
    (hd : frameResolves g ds = true) (hs : frameResolves g ss = true) :
    PoseSegs g ds ss = .ok ((worldOf g ss)⁻¹ * worldOf g ds) := by
  have e1 : (chainDown g (lcp ds ss) (ds.drop (lcp ds ss).length)).prod
      = (worldOf g (lcp ds ss))⁻¹ * worldOf g ds := by
    rw [chainDown_drop_prod, lcp_append_drop ds ss]
  have e2 : (chainDown g (lcp ds ss) (ss.drop (lcp ds ss).length)).prod
      = (worldOf g (lcp ds ss))⁻¹ * worldOf g ss := by
    rw [chainDown_drop_prod, lcp_symm ds ss, lcp_append_drop ss ds]
  unfold PoseSegs
  rw [hd, hs]
  simp only [Bool.and_self, if_true]
  split
  · rename_i heq
    subst heq
    rw [inv_mul_cancel]
  · rw [e1, e2]
    congr 1
    group

/-! Lemmas about the Frame Store: lookup, insertion and subtree deletion. -/

theorem list_all_congr {α : Type} (l : List α) (f h : α → Bool)
    (he : ∀ a ∈ l, f a = h a) : l.all f = l.all h := by
  induction l with
  | nil => rfl
  | cons a rest ih =>
      simp only [List.all_cons]
      rw [he a (List.mem_cons_self a rest), ih (fun b hb => he b (List.mem_cons_of_mem a hb))]

theorem findPath_mem {H : Type} (l : List (Nat × FPath × H)) (p : FPath) (i : Nat) (x : H)
    (h : findPath l p = some (i, x)) : (i, p, x) ∈ l := by
  induction l with
  | nil => simp [findPath] at h
  | cons e rest ih =>
      obtain ⟨j, q, y⟩ := e
      rw [findPath] at h
      split at h
      · rename_i hq
        simp only [Option.some.injEq, Prod.mk.injEq] at h
        obtain ⟨h1, h2⟩ := h
        subst hq; subst h1; subst h2
        exact List.mem_cons_self _ _
      · exact List.mem_cons_of_mem _ (ih h)

theorem findId_none_not_mem {H : Type} (l : List (Nat × FPath × H)) (i : Nat)
    (h : findId l i = none) : ∀ q x, (i, q, x) ∉ l := by
  induction l with
  | nil => simp
  | cons e rest ih =>
      obtain ⟨j, q, y⟩ := e
      rw [findId] at h
      split at h
      · cases h
      · rename_i hj
        intro r x hm
        rcases List.mem_cons.mp hm with h1 | h1
        · exact hj (by cases h1; rfl)
        · exact ih h r x h1

theorem findPath_filter_outside {H : Type} (l : List (Nat × FPath × H)) (ps q : FPath)
    (hq : ¬ ps <+: q) :
    findPath (l.filter (fun e => !decide (ps <+: e.2.1))) q = findPath l q := by
  induction l with
  | nil => rfl
  | cons e rest ih =>
      obtain ⟨j, r, y⟩ := e
      by_cases hkeep : ps <+: r
      · have hr : ¬ r = q := fun hc => hq (hc ▸ hkeep)
        rw [List.filter_cons_of_neg (by simp [hkeep])]
        rw [ih, findPath, if_neg hr]
      · rw [List.filter_cons_of_pos (by simp [hkeep])]
        rw [findPath, findPath, ih]

theorem findPath_filter_inside {H : Type} (l : List (Nat × FPath × H)) (ps q : FPath)
    (hq : ps <+: q) :
    findPath (l.filter (fun e => !decide (ps <+: e.2.1))) q = none := by
  induction l with
  | nil => rfl
  | cons e rest ih =>
      obtain ⟨j, r, y⟩ := e
      by_cases hkeep : ps <+: r
      · rw [List.filter_cons_of_neg (by simp [hkeep])]
        exact ih
      · have hr : ¬ r = q := fun hc => hkeep (hc ▸ hq)
        rw [List.filter_cons_of_pos (by simp [hkeep])]
        rw [findPath, if_neg hr]
        exact ih

theorem frameExists_delete (g : FrameGraph G) (ps q : FPath) (hne : ps ≠ []) :
    frameExists (deleteSub g ps) q = (frameExists g q && !decide (ps <+: q)) := by
  by_cases hq : q = []
  · subst hq
    have hps : ¬ ps <+: ([] : FPath) := by
      intro hc
      exact hne (List.prefix_nil.mp hc)
    simp [frameExists, hps]
  · by_cases hpre : ps <+: q
    · rw [frameExists, frameExists]
      simp only [deleteSub]
      rw [findPath_filter_inside g.frames ps q hpre]
      simp [hq, hpre]
    · rw [frameExists, frameExists]
      simp only [deleteSub]
      rw [findPath_filter_outside g.frames ps q hpre]
      simp [hq, hpre]

theorem poseAt_delete [Group G] (g : FrameGraph G) (ps q : FPath) (h : ¬ ps <+: q) :
    poseAt (deleteSub g ps) q = poseAt g q := by
  unfold poseAt
  simp only [deleteSub]
  rw [findPath_filter_outside g.frames ps q h]

theorem frameResolves_delete_outside (g : FrameGraph G) (ps q : FPath) (h : ¬ ps <+: q) :
    frameResolves (deleteSub g ps) q = frameResolves g q := by
  have hne : ps ≠ [] := by
    intro hc
    subst hc
    exact h ⟨q, rfl⟩
  unfold frameResolves
  apply list_all_congr
  intro t ht
  have htq : t <+: q := (List.mem_inits t q).mp ht
  have hnt : ¬ ps <+: t := fun hc => h (hc.trans htq)
  rw [frameExists_delete g ps t hne]
  simp [hnt]

theorem frameResolves_false_of_self (g : FrameGraph G) (q : FPath)
    (h : frameExists g q = false) : frameResolves g q = false := by
  cases hall : frameResolves g q with
  | false => rfl
  | true =>
      unfold frameResolves at hall
      rw [List.all_eq_true] at hall
      have : frameExists g q = true :=
        hall q ((List.mem_inits q q).mpr ⟨[], List.append_nil q⟩)
      rw [h] at this
      cases this

theorem frameResolves_delete_inside (g : FrameGraph G) (ps q : FPath)
    (hne : ps ≠ []) (h : ps <+: q) :
    frameResolves (deleteSub g ps) q = false := by
  apply frameResolves_false_of_self
  rw [frameExists_delete g ps q hne]
  simp [h]

theorem frameExists_cons (g : FrameGraph G) (e : Nat × FPath × G) (m : Nat) (q : FPath)
    (h : frameExists g q = true) :
    frameExists (⟨e :: g.frames, m⟩ : FrameGraph G) q = true := by
  obtain ⟨j, r, y⟩ := e
  by_cases hq : q = []
  · simp [frameExists, hq]
  · rw [frameExists] at h ⊢
    simp only [Bool.or_eq_true] at h ⊢
    rcases h with h | h
    · exact absurd (of_decide_eq_true h) hq
    · right
      rw [findPath]
      split
      · rfl
      · exact h

theorem frameResolves_cons (g : FrameGraph G) (e : Nat × FPath × G) (m : Nat) (q : FPath)
    (h : frameResolves g q = true) :
    frameResolves (⟨e :: g.frames, m⟩ : FrameGraph G) q = true := by
  unfold frameResolves at h ⊢
  rw [List.all_eq_true] at h ⊢
  intro t ht
  exact frameExists_cons g e m t (h t ht)

theorem frameResolves_concat_new (g : FrameGraph G) (ps : FPath) (n : Seg) (x : G) (i m : Nat)
    (h : frameResolves g ps = true) :
    frameResolves (⟨(i, ps ++ [n], x) :: g.frames, m⟩ : FrameGraph G) (ps ++ [n]) = true := by
  unfold frameResolves at h ⊢
  rw [List.all_eq_true] at h ⊢
  intro t ht
  have htq : t <+: ps ++ [n] := (List.mem_inits t _).mp ht
  rcases List.prefix_concat_iff.mp htq with h1 | h1
  · subst h1
    rw [frameExists]
    rw [findPath, if_pos rfl]
    simp
  · exact frameExists_cons g _ m t (h t ((List.mem_inits t ps).mpr h1))

theorem poseAt_cons_self [Group G] (fs : List (Nat × FPath × G)) (i m : Nat) (q : FPath)
    (x : G) (hq : q ≠ []) :
    poseAt (⟨(i, q, x) :: fs, m⟩ : FrameGraph G) q = x := by
  unfold poseAt
  rw [if_neg hq]
  simp [findPath]

theorem chainDown_congr [Group G] (g₁ g₂ : FrameGraph G) (rest : List Seg) :
    ∀ anc : FPath,
      (∀ t : FPath, t ≠ [] → t <+: rest → poseAt g₁ (anc ++ t) = poseAt g₂ (anc ++ t)) →
      chainDown g₁ anc rest = chainDown g₂ anc rest := by
  induction rest with
  | nil => intro anc _; rfl
  | cons s r ih =>
      intro anc h
      rw [chainDown, chainDown]
      have h1 : poseAt g₁ (anc ++ [s]) = poseAt g₂ (anc ++ [s]) :=
        h [s] (by simp) ⟨r, rfl⟩
      rw [h1]
      congr 1
      apply ih (anc ++ [s])
      intro t ht hpre
      have e : (anc ++ [s]) ++ t = anc ++ (s :: t) := by simp
      rw [e]
      refine h (s :: t) (by simp) ?_
      obtain ⟨u, hu⟩ := hpre
      exact ⟨u, by rw [List.cons_append, hu]⟩

theorem worldOf_delete [Group G] (g : FrameGraph G) (ps q : FPath) (h : ¬ ps <+: q) :
    worldOf (deleteSub g ps) q = worldOf g q := by
  unfold worldOf
  congr 1
  apply chainDown_congr
  intro t ht hpre
  simp only [List.nil_append]
  exact poseAt_delete g ps t (fun hc => h (hc.trans hpre))

/-! Inversion lemmas for the fallible operations. -/

theorem addFrame_ok_inv [Group G] (g g' : FrameGraph G) (p n : String) (T : G)
    (h : AddFrame g p n T = .ok g') :
    ∃ ps, parsePath p = some ps ∧ frameResolves g ps = true ∧
      frameExists g (ps ++ [n.data]) = false ∧
      g' = ⟨(g.nextId, ps ++ [n.data], T) :: g.frames, g.nextId + 1⟩ := by
  unfold AddFrame at h
  split at h
  · exact Except.noConfusion h
  · rename_i ps hp
    split at h
    · rename_i hres
      split at h
      · exact Except.noConfusion h
      · rename_i hdup
        refine ⟨ps, hp, hres, ?_, (Except.ok.inj h).symm⟩
        cases hfe : frameExists g (ps ++ [n.data]) with
        | false => rfl
        | true => exact absurd hfe hdup
    · exact Except.noConfusion h

theorem deleteFrame_ok_inv [Group G] (g g' : FrameGraph G) (p : String)
    (h : DeleteFrame g p = .ok g') :
    ∃ ps, parsePath p = some ps ∧ frameResolves g ps = true ∧ ps ≠ [] ∧
      g' = deleteSub g ps := by
  unfold DeleteFrame at h
  split at h
  · exact Except.noConfusion h
  · rename_i ps hp
    split at h
    · rename_i hres
      split at h
      · exact Except.noConfusion h
      · rename_i hroot
        exact ⟨ps, hp, hres, hroot, (Except.ok.inj h).symm⟩
    · exact Except.noConfusion h

theorem pose_ok_inv [Group G] (g : FrameGraph G) (a b : String) (x : G)
    (h : Pose g a b = .ok x) :
    ∃ as bs, parsePath a = some as ∧ parsePath b = some bs ∧
      frameResolves g as = true ∧ frameResolves g bs = true := by
  unfold Pose at h
  split at h
  · rename_i as bs hpa hpb
    unfold PoseSegs at h
    split at h
    · rename_i hres
      rw [Bool.and_eq_true] at hres
      exact ⟨as, bs, hpa, hpb, hres.1, hres.2⟩
    · exact Except.noConfusion h
  · exact Except.noConfusion h

theorem resolveRef_ok_frame_inv (g : FrameGraph G) (d : String) (i : Nat)
    (h : resolveRef g d = .ok (.frame i)) :
    ∃ ds x, parsePath d = some ds ∧ frameResolves g ds = true ∧ ds ≠ [] ∧
      findPath g.frames ds = some (i, x) := by
  unfold resolveRef at h
  split at h
  · exact Except.noConfusion h
  · rename_i ds hp
    split at h
    · rename_i hres
      split at h
      · exact WeakRef.noConfusion (Except.ok.inj h)
      · rename_i hnil
        split at h
        · rename_i j y h2
          have hji : WeakRef.frame j = WeakRef.frame i := Except.ok.inj h
          have hj : j = i := by cases hji; rfl
          subst hj
          exact ⟨ds, y, hp, hres, hnil, h2⟩
        · exact Except.noConfusion h
    · exact Except.noConfusion h

theorem resolveRef_error_inv (g : FrameGraph G) (d : String) (e : FrameError)
    (h : resolveRef g d = .error e) : e = .invalidPath := by
  unfold resolveRef at h
  split at h
  · exact (Except.error.inj h).symm
  · rename_i ds hp
    split at h
    · split at h
      · exact Except.noConfusion h
      · split at h
        · exact Except.noConfusion h
        · exact (Except.error.inj h).symm
    · exact (Except.error.inj h).symm

theorem createRelativePose_ok_inv [Group G] (g : FrameGraph G) (d s : String)
    (tok : RelativePose) (h : CreateRelativePose g d s = .ok tok) :
    isAbsolute d = true ∧ resolveRef g d = .ok tok.dst ∧ resolveRef g s = .ok tok.src := by
  unfold CreateRelativePose at h
  split at h
  · rename_i habs
    split at h
    · exact Except.noConfusion h
    · rename_i rd h1
      split at h
      · exact Except.noConfusion h
      · rename_i rs h2
        have htok : RelativePose.mk rd rs = tok := Except.ok.inj h
        subst htok
        exact ⟨habs, h1, h2⟩
  · exact Except.noConfusion h

theorem pose_eq_poseSegs [Group G] (g : FrameGraph G) (d s : String) (ds ss : FPath)
    (hd : parsePath d = some ds) (hs : parsePath s = some ss) :
    Pose g d s = PoseSegs g ds ss := by
  unfold Pose
  rw [hd, hs]

theorem localPose_eq [Group G] (g : FrameGraph G) (q : String) (qs : FPath)
    (hq : parsePath q = some qs) :
    LocalPose g q =
      if frameResolves g qs then .ok (poseAt g qs) else .error .invalidPath := by
  unfold LocalPose
  rw [hq]

theorem deleteFrame_eq [Group G] (g : FrameGraph G) (p : String) (ps : FPath)
    (hp : parsePath p = some ps) :
    DeleteFrame g p =
      if frameResolves g ps then
        (if ps = [] then .error .rootViolation else .ok (deleteSub g ps))
      else .error .invalidPath := by
  unfold DeleteFrame
  rw [hp]

theorem addFrame_eq [Group G] (g : FrameGraph G) (p n : String) (T : G) (ps : FPath)
    (hp : parsePath p = some ps) :
    AddFrame g p n T =
      if frameResolves g ps then
        (if frameExists g (ps ++ [n.data]) then .error .duplicateName
         else .ok ⟨(g.nextId, ps ++ [n.data], T) :: g.frames, g.nextId + 1⟩)
      else .error .invalidPath := by
  unfold AddFrame
  rw [hp]

theorem frameResolves_nil (g : FrameGraph G) : frameResolves g [] = true := by
  simp [frameResolves, frameExists]

theorem resolveRef_eq (g : FrameGraph G) (d : String) (ds : FPath)
    (hp : parsePath d = some ds) :
    resolveRef g d =
      if frameResolves g ds then
        (if ds = [] then .ok .root
         else
           match findPath g.frames ds with
           | some (i, _) => .ok (.frame i)
           | none => .error .invalidPath)
      else .error .invalidPath := by
  unfold resolveRef
  rw [hp]

theorem resolveRef_delete_dead (g : FrameGraph G) (ps : FPath) (d : String) (i : Nat)
    (hrd : resolveRef g d = .ok (.frame i))
    (hdead : refLive (deleteSub g ps) (.frame i) = false) :
    resolveRef (deleteSub g ps) d = .error .invalidPath := by
  obtain ⟨ds, x, hpd, hresd, hned, hfind⟩ := resolveRef_ok_frame_inv g d i hrd
  have hmem : (i, ds, x) ∈ g.frames := findPath_mem g.frames ds i x hfind
  have hnone : findId (deleteSub g ps).frames i = none := by
    simp only [refLive] at hdead
    cases hfi : findId (deleteSub g ps).frames i with
    | none => rfl
    | some e =>
        rw [hfi] at hdead
        exact Bool.noConfusion hdead
  have hnotmem : (i, ds, x) ∉ (deleteSub g ps).frames := findId_none_not_mem _ i hnone ds x
  have hpres : ps <+: ds := by
    by_contra hcon
    exact hnotmem (by
      simp only [deleteSub]
      rw [List.mem_filter]
      exact ⟨hmem, by simp [hcon]⟩)
  have hfalse : frameExists (deleteSub g ps) ds = false := by
    unfold frameExists
    simp only [deleteSub]
    rw [findPath_filter_inside g.frames ps ds hpres]
    simp [hned]
  rw [resolveRef_eq (deleteSub g ps) d ds hpd, frameResolves_false_of_self _ ds hfalse]
  simp

theorem poseSegs_antisymm [Group G] (g : FrameGraph G) (ds ss : FPath) :
    PoseSegs g ds ss = (PoseSegs g ss ds).map (fun x => x⁻¹) := by
  cases hr1 : frameResolves g ds with
  | true =>
      cases hr2 : frameResolves g ss with
      | true =>
          rw [poseSegs_eq_world g ds ss hr1 hr2, poseSegs_eq_world g ss ds hr2 hr1]
          simp only [Except.map]
          congr 1
          rw [mul_inv_rev, inv_inv]
      | false =>
          unfold PoseSegs
          rw [hr1, hr2]
          simp [Except.map]
  | false =>
      cases hr2 : frameResolves g ss with
      | true =>
          unfold PoseSegs
          rw [hr1, hr2]
          simp [Except.map]
      | false =>
          unfold PoseSegs
          rw [hr1, hr2]
          simp [Except.map]

/-! Claim theorems. -/

/-- Claim C1: for every pair of existing frames `dst` and `src`, `Pose(dst, src)`
equals `inverse(T_src)` composed with `T_dst`, where `T_dst` (resp. `T_src`) is
the ordered composition of local transforms from the lowest common ancestor of
the two frames down to `dst` (resp. `src`).  The witness instantiates the spec's
concrete scenario, where the query returns `Translate(1,-1,0)`. -/
theorem pose_lca_formula {G : Type} [Group G] (g : FrameGraph G) (d s : String)
    (ds ss : FPath) (hd : parsePath d = some ds) (hs : parsePath s = some ss)
    (hrd : frameResolves g ds = true) (hrs : frameResolves g ss = true) :
    Pose g d s =
      .ok ((composeDown g (lcp ds ss) (ss.drop (lcp ds ss).length))⁻¹ *
        composeDown g (lcp ds ss) (ds.drop (lcp ds ss).length)) := by
  rw [pose_eq_poseSegs g d s ds ss hd hs]
  rw [composeDown_eq_prod, composeDown_eq_prod]
  unfold PoseSegs
  rw [hrd, hrs]
  simp only [Bool.and_self, if_true]
  split
  · rename_i heq
    subst heq
    rw [inv_mul_cancel]
  · rfl

/-- Witness for C1: the spec's concrete scenario: building the tree with
`AddFrame("", "world", identity)`, `AddFrame("/world", "a", Translate(1,0,0))`,
`AddFrame("/world", "b", Translate(0,1,0))` yields `exGraph`, and
`Pose("/world/a", "/world/b")` returns `Translate(1,-1,0)`. -/
theorem pose_lca_formula_witness :
    ((AddFrame (emptyGraph TZ) "" "world" 1).bind
        (fun g => (AddFrame g "/world" "a" (tr 1 0 0)).bind
          (fun g => AddFrame g "/world" "b" (tr 0 1 0))) = .ok exGraph) ∧
    Pose exGraph "/world/a" "/world/b" = .ok (tr 1 (-1) 0) := by
  constructor
  · decide
  · have h := pose_lca_formula exGraph "/world/a" "/world/b"
      ["world".data, "a".data] ["world".data, "b".data]
      (by decide) (by decide) (by decide) (by decide)
    rw [h]
    decide

/-- Claim C2 (counterexample): over a non-commutative transform group the
composition `Pose(a,b) ∘ Pose(b,c)`, taken in the claim's operand order, differs
from `Pose(a,c)`: in the store `gD` (three frames under the root with dihedral
local transforms), `Pose("/a","/b")` and `Pose("/b","/c")` are the reflections
`sr 0` and `sr 1`, yet `Pose("/a","/c")` is not their composition. -/
theorem pose_transitivity_counterexample :
    Pose gD "/a" "/b" = .ok (DihedralGroup.sr 0) ∧
    Pose gD "/b" "/c" = .ok (DihedralGroup.sr 1) ∧
    Pose gD "/a" "/c" ≠ .ok (DihedralGroup.sr 0 * DihedralGroup.sr 1) :=
  ⟨by decide, by decide, by decide⟩

/-- Claim C2 (amended): for every three existing frames `a`, `b`, `c`, the pose
queries compose transitively through the intermediate frame with the operands in
the opposite order: `Pose(a,c) = Pose(b,c) ∘ Pose(a,b)` (equivalently, the claim
as written holds whenever the two results commute, e.g. for pure
translations). -/
theorem pose_transitivity_ordered {G : Type} [Group G] (g : FrameGraph G)
    (a b c : String) (x y : G)
    (hab : Pose g a b = .ok x) (hbc : Pose g b c = .ok y) :
    Pose g a c = .ok (y * x) := by
  obtain ⟨as, bs, hpa, hpb, hra, hrb⟩ := pose_ok_inv g a b x hab
  obtain ⟨bs', cs, hpb', hpc, hrb', hrc⟩ := pose_ok_inv g b c y hbc
  rw [hpb] at hpb'
  have hbs : bs = bs' := Option.some.inj hpb'
  subst hbs
  rw [pose_eq_poseSegs g a b as bs hpa hpb, poseSegs_eq_world g as bs hra hrb] at hab
  rw [pose_eq_poseSegs g b c bs cs hpb hpc, poseSegs_eq_world g bs cs hrb hrc] at hbc
  have hx : x = (worldOf g bs)⁻¹ * worldOf g as := (Except.ok.inj hab).symm
  have hy : y = (worldOf g cs)⁻¹ * worldOf g bs := (Except.ok.inj hbc).symm
  rw [pose_eq_poseSegs g a c as cs hpa hpc, poseSegs_eq_world g as cs hra hrc, hx, hy]
  congr 1
  group

/-- Witness for the amended C2: in the dihedral store, composing in the amended
order recovers `Pose("/a","/c")`. -/
theorem pose_transitivity_ordered_witness :
    Pose gD "/a" "/c" = .ok (DihedralGroup.sr 1 * DihedralGroup.sr 0) :=
  pose_transitivity_ordered gD "/a" "/b" "/c"
    (DihedralGroup.sr 0) (DihedralGroup.sr 1) (by decide) (by decide)

/-- Claim C3: for every two frames `a` and `b`, `Pose(a, b)` equals the inverse
transform of `Pose(b, a)`; proved unconditionally: the two queries fail
together, and when both succeed the returned transforms are mutually
inverse. -/
theorem pose_antisymm {G : Type} [Group G] (g : FrameGraph G) (a b : String) :
    Pose g a b = (Pose g b a).map (fun x => x⁻¹) := by
  unfold Pose
  cases hpa : parsePath a with
  | none =>
      cases hpb : parsePath b with
      | none => rfl
      | some bs => rfl
  | some as =>
      cases hpb : parsePath b with
      | none => rfl
      | some bs => exact poseSegs_antisymm g as bs

/-- Claim C4: for every existing frame `a`, `Pose(a, a)` returns the identity
transform.  The result is produced by the equal-source-and-destination early
return of the Pose Composer (spec section 4.3 step 1), before any ancestor
chain is built, so it holds for every store in which `a` resolves, whatever
the stored transforms. -/
theorem pose_self_identity {G : Type} [Group G] (g : FrameGraph G) (a : String)
    (as : FPath) (hp : parsePath a = some as) (hr : frameResolves g as = true) :
    Pose g a a = .ok 1 := by
  rw [pose_eq_poseSegs g a a as as hp hp]
  unfold PoseSegs
  rw [hr]
  simp

/-- Witness for C4 at the scenario store. -/
theorem pose_self_identity_witness : Pose exGraph "/world/a" "/world/a" = .ok 1 :=
  pose_self_identity exGraph "/world/a" ["world".data, "a".data] (by decide) (by decide)

/-- Claim C5: for every valid parent path `p`, fresh sibling name `n` (a
non-empty segment without the separator) and transform `T`, after a successful
`AddFrame(p, n, T)` the query `LocalPose(p ++ "/" ++ n)` returns exactly `T`,
and the new frame exists (is queryable) immediately. -/
theorem addFrame_localPose {G : Type} [Group G] (g g' : FrameGraph G) (p n : String)
    (T : G) (hn : n.data ≠ []) (hsep : '/' ∉ n.data)
    (h : AddFrame g p n T = .ok g') :
    LocalPose g' (p ++ "/" ++ n) = .ok T ∧
    ∃ ps, parsePath p = some ps ∧ frameExists g' (ps ++ [n.data]) = true := by
  obtain ⟨ps, hp, hres, hdup, hg'⟩ := addFrame_ok_inv g g' p n T h
  subst hg'
  have hparse : parsePath (p ++ "/" ++ n) = some (ps ++ [n.data]) :=
    parsePath_append_seg p n ps hp hn hsep
  have hres' : frameResolves
      (⟨(g.nextId, ps ++ [n.data], T) :: g.frames, g.nextId + 1⟩ : FrameGraph G)
      (ps ++ [n.data]) = true :=
    frameResolves_concat_new g ps n.data T g.nextId (g.nextId + 1) hres
  constructor
  · rw [localPose_eq _ _ _ hparse, hres', if_pos rfl]
    rw [poseAt_cons_self g.frames g.nextId (g.nextId + 1) (ps ++ [n.data]) T (by simp)]
  · exact ⟨ps, hp, by simp [frameExists, findPath]⟩

/-- Witness for C5: adding `c` with `Translate(2,0,0)` under `/world` in the
scenario store makes `LocalPose("/world" + "/" + "c")` return exactly that
transform. -/
theorem addFrame_localPose_witness :
    LocalPose exAdd ("/world" ++ "/" ++ "c") = .ok (tr 2 0 0) :=
  (addFrame_localPose exGraph exAdd "/world" "c" (tr 2 0 0)
    (by decide) (by decide) (by decide)).1

/-- Claim C6: `DeleteFrame` fails with `InvalidPath` when the path is malformed
or does not resolve to an existing frame, fails with `RootViolation` when the
path designates the root, and otherwise removes the addressed frame together
with its entire subtree in one step, leaving every frame outside the subtree
(and its local transform) untouched; the failing cases return an error and no
new store, so either the whole removal happens or no state changes at all. -/
theorem deleteFrame_spec {G : Type} [Group G] (g : FrameGraph G) (p : String) :
    (parsePath p = none → DeleteFrame g p = .error .invalidPath) ∧
    (∀ ps, parsePath p = some ps → frameResolves g ps = false →
      DeleteFrame g p = .error .invalidPath) ∧
    (parsePath p = some [] → DeleteFrame g p = .error .rootViolation) ∧
    (∀ ps, parsePath p = some ps → ps ≠ [] → frameResolves g ps = true →
      ∃ g', DeleteFrame g p = .ok g' ∧
        (∀ q, frameExists g' q = (frameExists g q && !decide (ps <+: q))) ∧
        (∀ q, ¬ ps <+: q → poseAt g' q = poseAt g q)) := by
  refine ⟨?_, ?_, ?_, ?_⟩
  · intro hp
    unfold DeleteFrame
    rw [hp]
  · intro ps hp hres
    rw [deleteFrame_eq g p ps hp, hres]
    simp
  · intro hp
    rw [deleteFrame_eq g p [] hp, frameResolves_nil g]
    simp
  · intro ps hp hne hres
    refine ⟨deleteSub g ps, ?_, ?_, ?_⟩
    · rw [deleteFrame_eq g p ps hp, hres]
      simp [hne]
    · intro q
      exact frameExists_delete g ps q hne
    · intro q hq
      exact poseAt_delete g ps q hq

/-- Witness for C6: a malformed path and a non-existing path are rejected with
`InvalidPath`, the root is rejected with `RootViolation`, and deleting
`/world/a` removes it while preserving `/world/b`'s local transform. -/
theorem deleteFrame_spec_witness :
    DeleteFrame exGraph "//" = .error .invalidPath ∧
    DeleteFrame exGraph "/nope" = .error .invalidPath ∧
    DeleteFrame exGraph "" = .error .rootViolation ∧
    ∃ g', DeleteFrame exGraph "/world/a" = .ok g' ∧
      frameExists g' ["world".data, "a".data] = false ∧
      poseAt g' ["world".data, "b".data] = poseAt exGraph ["world".data, "b".data] := by
  refine ⟨?_, ?_, ?_, ?_⟩
  · exact (deleteFrame_spec exGraph "//").1 (by decide)
  · exact (deleteFrame_spec exGraph "/nope").2.1 ["nope".data] (by decide) (by decide)
  · exact (deleteFrame_spec exGraph "").2.2.1 (by decide)
  · obtain ⟨g', hg', hex, hpose⟩ := (deleteFrame_spec exGraph "/world/a").2.2.2
      ["world".data, "a".data] (by decide) (by decide) (by decide)
    refine ⟨g', hg', ?_, ?_⟩
    · rw [hex ["world".data, "a".data]]
      decide
    · exact hpose ["world".data, "b".data] (by decide)

/-- Claim C7: after a successful `DeleteFrame(p)`, every `LocalPose` or `Pose`
query addressing `p` or a former descendant of `p` fails (with `InvalidPath`,
the path-query member of the claim's `DeletedFrame`/`InvalidPath` pair), while
every frame outside the deleted subtree keeps its local pose, keeps its
existence status, and `Pose` queries between frames outside the subtree return
exactly what they returned before the deletion. -/
theorem deleteFrame_queries {G : Type} [Group G] (g g' : FrameGraph G) (p : String)
    (ps : FPath) (hp : parsePath p = some ps) (hd : DeleteFrame g p = .ok g') :
    (∀ q qs, parsePath q = some qs → ps <+: qs →
      LocalPose g' q = .error .invalidPath ∧
      (∀ r, Pose g' q r = .error .invalidPath ∧ Pose g' r q = .error .invalidPath)) ∧
    (∀ q qs, parsePath q = some qs → ¬ ps <+: qs →
      LocalPose g' q = LocalPose g q ∧ frameExists g' qs = frameExists g qs) ∧
    (∀ q r qs rs, parsePath q = some qs → parsePath r = some rs →
      ¬ ps <+: qs → ¬ ps <+: rs → Pose g' q r = Pose g q r) := by
  obtain ⟨ps', hp', hres, hne, hg'⟩ := deleteFrame_ok_inv g g' p hd
  rw [hp] at hp'
  have hpe : ps = ps' := Option.some.inj hp'
  subst hpe
  subst hg'
  refine ⟨?_, ?_, ?_⟩
  · intro q qs hq hpre
    have hrq : frameResolves (deleteSub g ps) qs = false :=
      frameResolves_delete_inside g ps qs hne hpre
    refine ⟨?_, ?_⟩
    · rw [localPose_eq _ _ _ hq, hrq]
      simp
    · intro r
      constructor
      · unfold Pose
        rw [hq]
        cases hr : parsePath r with
        | none => rfl
        | some rs =>
            show PoseSegs _ qs rs = _
            unfold PoseSegs
            rw [hrq]
            simp
      · unfold Pose
        rw [hq]
        cases hr : parsePath r with
        | none => rfl
        | some rs =>
            show PoseSegs _ rs qs = _
            unfold PoseSegs
            rw [hrq]
            simp
  · intro q qs hq hout
    have h1 : frameResolves (deleteSub g ps) qs = frameResolves g qs :=
      frameResolves_delete_outside g ps qs hout
    have h2 : poseAt (deleteSub g ps) qs = poseAt g qs := poseAt_delete g ps qs hout
    constructor
    · rw [localPose_eq _ _ _ hq, localPose_eq _ _ _ hq, h1, h2]
    · rw [frameExists_delete g ps qs hne]
      simp [hout]
  · intro q r qs rs hq hr hoq hor
    rw [pose_eq_poseSegs _ q r qs rs hq hr, pose_eq_poseSegs g q r qs rs hq hr]
    have h1 : frameResolves (deleteSub g ps) qs = frameResolves g qs :=
      frameResolves_delete_outside g ps qs hoq
    have h2 : frameResolves (deleteSub g ps) rs = frameResolves g rs :=
      frameResolves_delete_outside g ps rs hor
    cases hq1 : frameResolves g qs with
    | false =>
        unfold PoseSegs
        rw [h1, h2, hq1]
        simp
    | true =>
        cases hr1 : frameResolves g rs with
        | false =>
            unfold PoseSegs
            rw [h1, h2, hq1, hr1]
            simp
        | true =>
            have hdq : frameResolves (deleteSub g ps) qs = true := by rw [h1]; exact hq1
            have hdr : frameResolves (deleteSub g ps) rs = true := by rw [h2]; exact hr1
            rw [poseSegs_eq_world (deleteSub g ps) qs rs hdq hdr,
              poseSegs_eq_world g qs rs hq1 hr1,
              worldOf_delete g ps qs hoq, worldOf_delete g ps rs hor]

/-- Witness for C7: after deleting `/world/a` from the scenario store, queries
on the removed frame fail while `/world/b` answers exactly as before. -/
theorem deleteFrame_queries_witness :
    LocalPose exDel "/world/a" = .error .invalidPath ∧
    Pose exDel "/world/a" "/world/b" = .error .invalidPath ∧
    LocalPose exDel "/world/b" = LocalPose exGraph "/world/b" ∧
    Pose exDel "/world/b" "/world" = Pose exGraph "/world/b" "/world" := by
  have h := deleteFrame_queries exGraph exDel "/world/a" ["world".data, "a".data]
    (by decide) (by decide)
  refine ⟨?_, ?_, ?_, ?_⟩
  · exact (h.1 "/world/a" ["world".data, "a".data] (by decide) (by decide)).1
  · exact ((h.1 "/world/a" ["world".data, "a".data] (by decide) (by decide)).2 "/world/b").1
  · exact (h.2.1 "/world/b" ["world".data, "b".data] (by decide) (by decide)).1
  · exact h.2.2 "/world/b" "/world" ["world".data, "b".data] ["world".data]
      (by decide) (by decide) (by decide) (by decide)

/-- Claim C8: an `AddFrame` whose name already exists among the children of the
resolved parent frame fails with `DuplicateName`; no store is returned, so the
tree is left completely unchanged. -/
theorem addFrame_duplicate {G : Type} [Group G] (g : FrameGraph G) (p n : String)
    (T : G) (ps : FPath) (hp : parsePath p = some ps)
    (hres : frameResolves g ps = true)
    (hdup : frameExists g (ps ++ [n.data]) = true) :
    AddFrame g p n T = .error .duplicateName := by
  rw [addFrame_eq g p n T ps hp, hres, hdup]
  simp

/-- Witness for C8: re-adding the existing name `a` under `/world` is rejected
with `DuplicateName`. -/
theorem addFrame_duplicate_witness :
    AddFrame exGraph "/world" "a" (tr 5 5 5) = .error .duplicateName :=
  addFrame_duplicate exGraph "/world" "a" (tr 5 5 5) ["world".data]
    (by decide) (by decide) (by decide)

/-- Claim C9: a relative-query token created by `CreateRelativePose` before a
`DeleteFrame` call that removes one of its two captured frames fails with
`DeletedFrame` when evaluated after the deletion (the token is not
auto-repaired), whereas calling `CreateRelativePose` again on the same path
strings after the deletion fails at creation time with `InvalidPath`. -/
theorem relativePose_stale {G : Type} [Group G] (g g' : FrameGraph G)
    (d s p : String) (tok : RelativePose)
    (hc : CreateRelativePose g d s = .ok tok)
    (hd : DeleteFrame g p = .ok g')
    (hdead : (refLive g' tok.dst && refLive g' tok.src) = false) :
    PoseRelative g' tok = .error .deletedFrame ∧
    CreateRelativePose g' d s = .error .invalidPath := by
  obtain ⟨habs, hrd, hrs⟩ := createRelativePose_ok_inv g d s tok hc
  obtain ⟨ps, hp, hres, hne, hg'⟩ := deleteFrame_ok_inv g g' p hd
  subst hg'
  constructor
  · unfold PoseRelative
    rw [hdead]
    simp
  · cases hld : refLive (deleteSub g ps) tok.dst with
    | false =>
        cases htd : tok.dst with
        | root =>
            rw [htd] at hld
            exact Bool.noConfusion hld
        | frame i =>
            rw [htd] at hrd hld
            have hrr := resolveRef_delete_dead g ps d i hrd hld
            unfold CreateRelativePose
            rw [if_pos habs, hrr]
    | true =>
        cases hls : refLive (deleteSub g ps) tok.src with
        | false =>
            cases hts : tok.src with
            | root =>
                rw [hts] at hls
                exact Bool.noConfusion hls
            | frame i =>
                rw [hts] at hrs hls
                have hsr := resolveRef_delete_dead g ps s i hrs hls
                unfold CreateRelativePose
                rw [if_pos habs]
                cases hdd : resolveRef (deleteSub g ps) d with
                | error e =>
                    have he : e = .invalidPath := resolveRef_error_inv _ d e hdd
                    subst he
                    rfl
                | ok rd' =>
                    rw [hsr]
        | true =>
            rw [hld, hls] at hdead
            exact Bool.noConfusion hdead

/-- Witness for C9: the token on `/world/a` and `/world/b`, captured before
`DeleteFrame("/world/a")`, evaluates to `DeletedFrame` afterwards, while
re-creating it from the same path strings fails with `InvalidPath`. -/
theorem relativePose_stale_witness :
    PoseRelative exDel ⟨.frame 1, .frame 2⟩ = .error .deletedFrame ∧
    CreateRelativePose exDel "/world/a" "/world/b" = .error .invalidPath :=
  relativePose_stale exGraph exDel "/world/a" "/world/b" "/world/a"
    ⟨.frame 1, .frame 2⟩ (by decide) (by decide) (by decide)

/-- Claim C10: `CreateRelativePose` treats its two path arguments
asymmetrically, per the parameter contract documented in the header (lines
106–107): a destination given in relative (non-absolute) form is rejected with
a `FrameException` (`InvalidPath`) whatever the store, while the source path
may be relative and still resolve, in which case creation succeeds.  The
witness exhibits the same relative path string failing as destination and
succeeding as source on the scenario store. -/
theorem createRelativePose_asymmetry {G : Type} [Group G] :
    (∀ (g : FrameGraph G) (d s : String), isAbsolute d = false →
      CreateRelativePose g d s = .error .invalidPath) ∧
    (∀ (g : FrameGraph G) (d s : String) (rd rs : WeakRef),
      isAbsolute d = true → resolveRef g d = .ok rd → resolveRef g s = .ok rs →
      CreateRelativePose g d s = .ok ⟨rd, rs⟩) := by
  constructor
  · intro g d s habs
    unfold CreateRelativePose
    rw [habs]
    simp
  · intro g d s rd rs habs h1 h2
    unfold CreateRelativePose
    rw [if_pos habs, h1, h2]

/-- Witness for C10: on the scenario store the relative-form path `world/a` is
rejected as destination but resolves as source. -/
theorem createRelativePose_asymmetry_witness :
    CreateRelativePose exGraph "world/a" "/world/b" = .error .invalidPath ∧
    CreateRelativePose exGraph "/world/b" "world/a" = .ok ⟨.frame 2, .frame 1⟩ := by
  constructor
  · exact (@createRelativePose_asymmetry TZ _).1 exGraph "world/a" "/world/b" (by decide)
  · exact (@createRelativePose_asymmetry TZ _).2 exGraph "/world/b" "world/a"
      (.frame 2) (.frame 1) (by decide) (by decide) (by decide)

end IgnMath
